import Mathlib

/-!
Formal model of `main.py`, a single-file utility that deletes the contents of
the Adobe CameraRaw `Cache2` directory: resolve a target path, validate it
(existence, marker substrings), optionally confirm with the user, delete all
files then all (now empty) directories deepest-first, and report a summary.

Paths are modelled as lists of components (already resolved, absolute); the
filesystem is a snapshot of file paths and directory paths.  Symlinks and
races are captured by the parameter `res : Path → Path`, the resolution each
path has at deletion time (`p.resolve()` in the source), and per-entry
deletion failures (permissions, locks) by `delOk : Path → Bool`.
-/

namespace DeleteCache

/-- A filesystem path: its list of components (absolute, resolved form). -/
abbrev Path := List String

/-- String form of a path (`str(path)` in the source): separator before each
component. -/
def pathStr : Path → String
  | [] => ""
  | c :: rest => "/" ++ c ++ pathStr rest

/-- `listContains pat hay`: `pat` occurs as a contiguous run inside `hay`. -/
def listContains (pat : List Char) : List Char → Bool
  | [] => pat.isEmpty
  | c :: rest => pat.isPrefixOf (c :: rest) || listContains pat rest

/-- Python's substring test `pat in s`. -/
def strContains (s pat : String) : Bool := listContains pat.data s.data

/-- `startsWith p base`: `base` is a componentwise prefix of `p`.  This is
Python's `p.is_relative_to(base)` on resolved absolute paths. -/
def startsWith : Path → Path → Bool
  | _, [] => true
  | [], _ :: _ => false
  | a :: p, b :: base => a == b && startsWith p base

/-- `inDir base p`: `p` is a strict descendant of `base`; exactly the entries
`base.rglob('*')` enumerates. -/
def inDir (base p : Path) : Bool := startsWith p base && p != base

/-- Snapshot of the filesystem: which paths are regular files and which are
directories. -/
structure FS where
  files : List Path
  dirs : List Path
deriving DecidableEq

/-- File List: `[p for p in target_path.rglob('*') if p.is_file()]`. -/
def scanFiles (fs : FS) (target : Path) : List Path :=
  fs.files.filter (fun p => inDir target p)

/-- Directory List before sorting:
`[p for p in target_path.rglob('*') if p.is_dir()]`. -/
def scanDirs (fs : FS) (target : Path) : List Path :=
  fs.dirs.filter (fun p => inDir target p)

/-- The sort order used on the Directory List: descending length of the
path's string form (`key=lambda p: len(str(p)), reverse=True`). -/
def dirOrder (a b : Path) : Prop := (pathStr b).length ≤ (pathStr a).length

instance : DecidableRel dirOrder := fun _ _ => Nat.decLe _ _

instance : IsTotal Path dirOrder := ⟨fun a b => Nat.le_total (pathStr b).length (pathStr a).length⟩

instance : IsTrans Path dirOrder := ⟨fun _ _ _ hab hbc => Nat.le_trans hbc hab⟩

/-- Sorted Directory List.  The source uses Python's stable `list.sort`;
`insertionSort` is also stable, so on the same key order it produces the same
list. -/
def sortDirs (l : List Path) : List Path := l.insertionSort dirOrder

/-- One per-entry outcome of the deletion loops, in attempt order. -/
inductive Event
  | fileDeleted (p : Path)
  | fileSkipped (p : Path)
  | fileFailed (p : Path)
  | dirDeleted (p : Path)
  | dirSkipped (p : Path)
  | dirFailed (p : Path)
deriving DecidableEq

/-- The path an event is about. -/
def Event.path : Event → Path
  | fileDeleted p | fileSkipped p | fileFailed p => p
  | dirDeleted p | dirSkipped p | dirFailed p => p

/-- Whether the event belongs to the per-file loop. -/
def Event.isFileEv : Event → Bool
  | fileDeleted _ | fileSkipped _ | fileFailed _ => true
  | _ => false

/-- Whether the event belongs to the per-directory loop. -/
def Event.isDirEv : Event → Bool
  | dirDeleted _ | dirSkipped _ | dirFailed _ => true
  | _ => false

/-- Whether the entry was actually deleted. -/
def Event.isSuccess : Event → Bool
  | fileDeleted _ | dirDeleted _ => true
  | _ => false

/-- Severity of a log record. -/
inductive LogLevel
  | info
  | warning
  | error
deriving DecidableEq

/-- One line of the run log. -/
structure LogRecord where
  level : LogLevel
  msg : String
deriving DecidableEq

/-- The log line each deletion-loop outcome writes. -/
def logOfEvent : Event → LogRecord
  | .fileDeleted p => ⟨.info, "Deleted file: " ++ pathStr p⟩
  | .fileSkipped p => ⟨.warning, "Skipping file outside target: " ++ pathStr p⟩
  | .fileFailed p => ⟨.error, "Failed to delete file " ++ pathStr p⟩
  | .dirDeleted p => ⟨.info, "Deleted directory: " ++ pathStr p⟩
  | .dirSkipped p => ⟨.warning, "Skipping directory outside target: " ++ pathStr p⟩
  | .dirFailed p => ⟨.error, "Failed to delete directory " ++ pathStr p⟩

/-- Effect of `file_path.unlink()`: the path no longer names a file. -/
def removeFile (fs : FS) (p : Path) : FS :=
  ⟨fs.files.filter (fun q => q ≠ p), fs.dirs⟩

/-- Effect of `dir_path.rmdir()`: the path no longer names a directory. -/
def removeDir (fs : FS) (p : Path) : FS :=
  ⟨fs.files, fs.dirs.filter (fun q => q ≠ p)⟩

/-- A directory that still has entries: `rmdir` raises on it. -/
def dirNonEmpty (fs : FS) (d : Path) : Bool :=
  fs.files.any (fun p => inDir d p) || fs.dirs.any (fun p => inDir d p)

/-- The per-file loop of `main`: containment re-check (skip with a warning on
failure), then `unlink`; a raising `unlink` is logged as an error and the loop
continues. -/
def deleteFiles (target : Path) (res : Path → Path) (delOk : Path → Bool) :
    List Path → FS → FS × List Event
  | [], fs => (fs, [])
  | f :: rest, fs =>
    if startsWith (res f) target then
      if delOk f then
        let out := deleteFiles target res delOk rest (removeFile fs f)
        (out.1, .fileDeleted f :: out.2)
      else
        let out := deleteFiles target res delOk rest fs
        (out.1, .fileFailed f :: out.2)
    else
      let out := deleteFiles target res delOk rest fs
      (out.1, .fileSkipped f :: out.2)

/-- The per-directory loop of `main`: containment re-check, then `rmdir`,
which succeeds only when the directory is empty and no other failure
(`delOk`) occurs. -/
def deleteDirs (target : Path) (res : Path → Path) (delOk : Path → Bool) :
    List Path → FS → FS × List Event
  | [], fs => (fs, [])
  | d :: rest, fs =>
    if startsWith (res d) target then
      if !dirNonEmpty fs d && delOk d then
        let out := deleteDirs target res delOk rest (removeDir fs d)
        (out.1, .dirDeleted d :: out.2)
      else
        let out := deleteDirs target res delOk rest fs
        (out.1, .dirFailed d :: out.2)
    else
      let out := deleteDirs target res delOk rest fs
      (out.1, .dirSkipped d :: out.2)

/-- The two fatal pre-deletion validation failures. -/
inductive GateError
  | pathNotFound
  | unexpectedPath
deriving DecidableEq

/-- The marker substrings the gate requires in the target path's string form. -/
def hasMarkers (s : String) : Bool := strContains s "CameraRaw" && strContains s "Cache2"

/-- `target_path.exists() and target_path.is_dir()`. -/
def dirExists (fs : FS) (target : Path) : Bool := fs.dirs.contains target

/-- The pre-deletion validation, in source order: the existence check runs
first, the marker check second. -/
def safetyGate (fs : FS) (target : Path) : Option GateError :=
  if !dirExists fs target then some .pathNotFound
  else if !hasMarkers (pathStr target) then some .unexpectedPath
  else none

/-- How the process ended (when it did not crash). -/
inductive Outcome
  | completed
  | exited (code : Nat)
deriving DecidableEq

/-- The rows of the final summary table. -/
structure Summary where
  targetDir : String
  filesDeleted : Nat
  logFile : String
deriving DecidableEq

/-- Everything observable about one run past path resolution. -/
structure RunOutput where
  outcome : Outcome
  promptShown : Bool
  gateError : Option GateError
  events : List Event
  log : List LogRecord
  finalFS : FS
  summary : Option Summary
deriving DecidableEq

/-- Log line written when the user declines the confirmation prompt. -/
def cancelMsg : String := "Operation cancelled by user."

/-- Log line written when the scan finds no files. -/
def noFilesMsg : String := "No files to delete in the target directory."

/-- Log line written after the deletion loops finish. -/
def completedMsg : String := "Deletion process completed."

/-- Everything `main` does once the target path is resolved: safety gate,
confirmation prompt, scan, deletion loops, summary.  `yes` is the `-y` flag,
`confirmAnswer` the user's reply when prompted.  The summary's files-deleted
row carries `total_files`, the length of the scanned File List, exactly as
the source prints it. -/
def runWithTarget (target : Path) (yes : Bool) (fs : FS) (res : Path → Path)
    (delOk : Path → Bool) (confirmAnswer : Bool) (logPath : String) : RunOutput :=
  match safetyGate fs target with
  | some e => ⟨.exited 1, false, some e, [], [], fs, none⟩
  | none =>
    if !yes && !confirmAnswer then
      ⟨.exited 0, true, none, [], [⟨.info, cancelMsg⟩], fs, none⟩
    else
      let allFiles := scanFiles fs target
      let allDirs := sortDirs (scanDirs fs target)
      let totalFiles := allFiles.length
      if totalFiles = 0 then
        ⟨.completed, !yes, none, [], [⟨.info, noFilesMsg⟩], fs,
          some ⟨pathStr target, totalFiles, logPath⟩⟩
      else
        let r1 := deleteFiles target res delOk allFiles fs
        let r2 := deleteDirs target res delOk allDirs r1.1
        ⟨.completed, !yes, none, r1.2 ++ r2.2,
          (r1.2 ++ r2.2).map logOfEvent ++ [⟨.info, completedMsg⟩], r2.1,
          some ⟨pathStr target, totalFiles, logPath⟩⟩

/-- The two deletion loops as `main` chains them: all files in scan order,
then all directories in sorted order, threading the filesystem through. -/
def runDeletion (target : Path) (res : Path → Path) (delOk : Path → Bool) (fs : FS) :
    FS × List Event :=
  ((deleteDirs target res delOk (sortDirs (scanDirs fs target))
      (deleteFiles target res delOk (scanFiles fs target) fs).1).1,
    (deleteFiles target res delOk (scanFiles fs target) fs).2 ++
      (deleteDirs target res delOk (sortDirs (scanDirs fs target))
        (deleteFiles target res delOk (scanFiles fs target) fs).1).2)

/-- Result of the whole program: a run that reached an exit, or a crash with
an uncaught `TypeError` (from `Path(None)`). -/
inductive ProgResult
  | ran (out : RunOutput)
  | crashedTypeError
deriving DecidableEq

/-- Python's `a or b` over `os.getenv` results: unset, or set to the empty
string, is falsy. -/
def envOr : Option String → Option String → Option String
  | some s, b => if s = "" then b else some s
  | none, b => b

/-- The whole `main`, from argument handling on.  `parsePath` abstracts
`normalize_path` and `Path(...).resolve()`: it turns a string into a resolved
absolute path.  With no `--path` argument the target is the local-appdata
environment value (falling back to the roaming one) extended by
`Adobe/CameraRaw/Cache2`; if both variables are unset, `Path(None)` raises
`TypeError`. -/
def mainRun (argPath : Option String) (yes : Bool) (envLocal envRoaming : Option String)
    (fs : FS) (res : Path → Path) (delOk : Path → Bool) (confirmAnswer : Bool)
    (logPath : String) (parsePath : String → Path) : ProgResult :=
  match argPath with
  | some s => .ran (runWithTarget (parsePath s) yes fs res delOk confirmAnswer logPath)
  | none =>
    match envOr envLocal envRoaming with
    | none => .crashedTypeError
    | some base =>
      .ran (runWithTarget (parsePath base ++ ["Adobe", "CameraRaw", "Cache2"])
        yes fs res delOk confirmAnswer logPath)

/-! ### Basic lemmas about paths and containment -/

theorem pathStr_append (p q : Path) : pathStr (p ++ q) = pathStr p ++ pathStr q := by
  induction p with
  | nil => simp [pathStr]
  | cons c rest ih => simp [pathStr, ih, String.append_assoc]

theorem pathStr_length_pos {p : Path} (h : p ≠ []) : 0 < (pathStr p).length := by
  cases p with
  | nil => exact absurd rfl h
  | cons c rest =>
    simp only [pathStr, String.length_append]
    have : ("/" : String).length = 1 := rfl
    omega

theorem startsWith_iff {p base : Path} :
    startsWith p base = true ↔ ∃ rest, p = base ++ rest := by
  induction base generalizing p with
  | nil => simp [startsWith]
  | cons b bs ih =>
    cases p with
    | nil =>
      simp only [startsWith, List.cons_append]
      constructor
      · intro h; cases h
      · rintro ⟨rest, h⟩; cases h
    | cons a p =>
      simp only [startsWith, Bool.and_eq_true, beq_iff_eq, ih, List.cons_append]
      constructor
      · rintro ⟨rfl, rest, rfl⟩; exact ⟨rest, rfl⟩
      · rintro ⟨rest, h⟩
        injection h with h1 h2
        exact ⟨h1, rest, h2⟩

theorem inDir_iff {base p : Path} :
    inDir base p = true ↔ ∃ rest, rest ≠ [] ∧ p = base ++ rest := by
  simp only [inDir, Bool.and_eq_true, startsWith_iff, bne_iff_ne, ne_eq]
  constructor
  · rintro ⟨⟨rest, rfl⟩, hne⟩
    refine ⟨rest, ?_, rfl⟩
    rintro rfl
    simp at hne
  · rintro ⟨rest, hne, rfl⟩
    refine ⟨⟨rest, rfl⟩, ?_⟩
    intro h
    apply hne
    have := congrArg List.length h
    simp at this
    exact this

theorem inDir_pathStr_lt {base p : Path} (h : inDir base p = true) :
    (pathStr base).length < (pathStr p).length := by
  obtain ⟨rest, hne, rfl⟩ := inDir_iff.mp h
  rw [pathStr_append, String.length_append]
  have := pathStr_length_pos hne
  omega

theorem startsWith_refl (p : Path) : startsWith p p = true :=
  startsWith_iff.mpr ⟨[], by simp⟩

theorem startsWith_of_inDir {base p : Path} (h : inDir base p = true) :
    startsWith p base = true := by
  obtain ⟨rest, _, rfl⟩ := inDir_iff.mp h
  exact startsWith_iff.mpr ⟨rest, rfl⟩

/-! ### Lemmas about the per-file loop -/

theorem deleteFiles_events_path (target : Path) (res : Path → Path) (delOk : Path → Bool)
    (l : List Path) (fs : FS) :
    ((deleteFiles target res delOk l fs).2).map Event.path = l := by
  induction l generalizing fs with
  | nil => simp [deleteFiles]
  | cons f rest ih =>
    cases h1 : startsWith (res f) target with
    | false => simp [deleteFiles, h1, Event.path, ih]
    | true =>
      cases h2 : delOk f with
      | false => simp [deleteFiles, h1, h2, Event.path, ih]
      | true => simp [deleteFiles, h1, h2, Event.path, ih]

theorem deleteFiles_events_file (target : Path) (res : Path → Path) (delOk : Path → Bool)
    (l : List Path) (fs : FS) :
    ∀ ev ∈ (deleteFiles target res delOk l fs).2, ev.isFileEv = true := by
  induction l generalizing fs with
  | nil => simp [deleteFiles]
  | cons f rest ih =>
    intro ev hev
    cases h1 : startsWith (res f) target with
    | false =>
      simp [deleteFiles, h1] at hev
      rcases hev with rfl | hev
      · rfl
      · exact ih fs ev hev
    | true =>
      cases h2 : delOk f with
      | false =>
        simp [deleteFiles, h1, h2] at hev
        rcases hev with rfl | hev
        · rfl
        · exact ih fs ev hev
      | true =>
        simp [deleteFiles, h1, h2] at hev
        rcases hev with rfl | hev
        · rfl
        · exact ih _ ev hev

theorem deleteFiles_dirs (target : Path) (res : Path → Path) (delOk : Path → Bool)
    (l : List Path) (fs : FS) :
    ((deleteFiles target res delOk l fs).1).dirs = fs.dirs := by
  induction l generalizing fs with
  | nil => simp [deleteFiles]
  | cons f rest ih =>
    cases h1 : startsWith (res f) target with
    | false => simp [deleteFiles, h1, ih]
    | true =>
      cases h2 : delOk f with
      | false => simp [deleteFiles, h1, h2, ih]
      | true => simp [deleteFiles, h1, h2, ih, removeFile]

theorem deleteFiles_files_subset (target : Path) (res : Path → Path) (delOk : Path → Bool)
    (l : List Path) (fs : FS) :
    (deleteFiles target res delOk l fs).1.files ⊆ fs.files := by
  induction l generalizing fs with
  | nil => simp [deleteFiles]
  | cons f rest ih =>
    cases h1 : startsWith (res f) target with
    | false => simpa [deleteFiles, h1] using ih fs
    | true =>
      cases h2 : delOk f with
      | false => simpa [deleteFiles, h1, h2] using ih fs
      | true =>
        simp only [deleteFiles, h1, h2, if_true, Bool.true_eq]
        refine (ih _).trans ?_
        simp only [removeFile]
        exact List.filter_subset' _

theorem deleteFiles_deleted_startsWith {target : Path} {res : Path → Path}
    {delOk : Path → Bool} {l : List Path} {fs : FS} {p : Path}
    (h : Event.fileDeleted p ∈ (deleteFiles target res delOk l fs).2) :
    startsWith (res p) target = true := by
  induction l generalizing fs with
  | nil => simp [deleteFiles] at h
  | cons f rest ih =>
    cases h1 : startsWith (res f) target with
    | false =>
      simp only [deleteFiles, h1] at h
      simp at h
      exact ih h
    | true =>
      cases h2 : delOk f with
      | false =>
        simp only [deleteFiles, h1, h2] at h
        simp at h
        exact ih h
      | true =>
        simp only [deleteFiles, h1, h2] at h
        simp at h
        rcases h with rfl | h
        · exact h1
        · exact ih h

theorem deleteFiles_outside_kept {target : Path} {res : Path → Path}
    {delOk : Path → Bool} {l : List Path} {fs : FS} {p : Path}
    (hout : startsWith (res p) target = false) (hp : p ∈ fs.files) :
    p ∈ (deleteFiles target res delOk l fs).1.files := by
  induction l generalizing fs with
  | nil => simpa [deleteFiles] using hp
  | cons f rest ih =>
    cases h1 : startsWith (res f) target with
    | false =>
      simp only [deleteFiles, h1]
      simpa using ih hp
    | true =>
      cases h2 : delOk f with
      | false =>
        simp only [deleteFiles, h1, h2]
        simpa using ih hp
      | true =>
        simp only [deleteFiles, h1, h2, if_true, Bool.true_eq]
        apply ih
        simp only [removeFile, List.mem_filter, decide_eq_true_eq]
        refine ⟨hp, ?_⟩
        intro hpf
        rw [hpf, h1] at hout
        cases hout

theorem deleteFiles_skip_event {target : Path} {res : Path → Path}
    {delOk : Path → Bool} {l : List Path} {fs : FS} {f : Path}
    (hf : f ∈ l) (hout : startsWith (res f) target = false) :
    Event.fileSkipped f ∈ (deleteFiles target res delOk l fs).2 := by
  induction l generalizing fs with
  | nil => cases hf
  | cons g rest ih =>
    rcases List.mem_cons.mp hf with rfl | hf'
    · simp [deleteFiles, hout]
    · cases h1 : startsWith (res g) target with
      | false =>
        simp only [deleteFiles, h1]
        simp [ih hf']
      | true =>
        cases h2 : delOk g with
        | false =>
          simp only [deleteFiles, h1, h2]
          simp [ih hf']
        | true =>
          simp only [deleteFiles, h1, h2]
          simp [ih hf']

theorem deleteFiles_success_removed {target : Path} {res : Path → Path}
    {delOk : Path → Bool} {l : List Path} {fs : FS} {f : Path} (hf : f ∈ l)
    (hs : ∀ ev ∈ (deleteFiles target res delOk l fs).2, ev.isSuccess = true) :
    f ∉ (deleteFiles target res delOk l fs).1.files := by
  induction l generalizing fs with
  | nil => cases hf
  | cons g rest ih =>
    cases h1 : startsWith (res g) target with
    | false =>
      exfalso
      have := hs (.fileSkipped g) (by simp [deleteFiles, h1])
      simp [Event.isSuccess] at this
    | true =>
      cases h2 : delOk g with
      | false =>
        exfalso
        have := hs (.fileFailed g) (by simp [deleteFiles, h1, h2])
        simp [Event.isSuccess] at this
      | true =>
        simp only [deleteFiles, h1, h2, if_true, Bool.true_eq] at hs ⊢
        have hs' : ∀ ev ∈ (deleteFiles target res delOk rest (removeFile fs g)).2,
            ev.isSuccess = true := by
          intro ev hev
          exact hs ev (by simp [hev])
        rcases List.mem_cons.mp hf with rfl | hf'
        · intro hmem
          have := deleteFiles_files_subset target res delOk rest (removeFile fs f) hmem
          simp [removeFile, List.mem_filter] at this
        · exact ih hf' hs'

/-! ### Lemmas about the per-directory loop -/

theorem deleteDirs_events_path (target : Path) (res : Path → Path) (delOk : Path → Bool)
    (l : List Path) (fs : FS) :
    ((deleteDirs target res delOk l fs).2).map Event.path = l := by
  induction l generalizing fs with
  | nil => simp [deleteDirs]
  | cons d rest ih =>
    cases h1 : startsWith (res d) target with
    | false => simp [deleteDirs, h1, Event.path, ih]
    | true =>
      cases h2 : !dirNonEmpty fs d && delOk d with
      | false => simp [deleteDirs, h1, h2, Event.path, ih]
      | true => simp [deleteDirs, h1, h2, Event.path, ih]

theorem deleteDirs_events_dir (target : Path) (res : Path → Path) (delOk : Path → Bool)
    (l : List Path) (fs : FS) :
    ∀ ev ∈ (deleteDirs target res delOk l fs).2, ev.isDirEv = true := by
  induction l generalizing fs with
  | nil => simp [deleteDirs]
  | cons d rest ih =>
    intro ev hev
    cases h1 : startsWith (res d) target with
    | false =>
      simp [deleteDirs, h1] at hev
      rcases hev with rfl | hev
      · rfl
      · exact ih fs ev hev
    | true =>
      cases h2 : !dirNonEmpty fs d && delOk d with
      | false =>
        simp [deleteDirs, h1, h2] at hev
        rcases hev with rfl | hev
        · rfl
        · exact ih fs ev hev
      | true =>
        simp [deleteDirs, h1, h2] at hev
        rcases hev with rfl | hev
        · rfl
        · exact ih _ ev hev

theorem deleteDirs_files (target : Path) (res : Path → Path) (delOk : Path → Bool)
    (l : List Path) (fs : FS) :
    ((deleteDirs target res delOk l fs).1).files = fs.files := by
  induction l generalizing fs with
  | nil => simp [deleteDirs]
  | cons d rest ih =>
    cases h1 : startsWith (res d) target with
    | false => simp [deleteDirs, h1, ih]
    | true =>
      cases h2 : !dirNonEmpty fs d && delOk d with
      | false => simp [deleteDirs, h1, h2, ih]
      | true => simp [deleteDirs, h1, h2, ih, removeDir]

theorem deleteDirs_dirs_subset (target : Path) (res : Path → Path) (delOk : Path → Bool)
    (l : List Path) (fs : FS) :
    (deleteDirs target res delOk l fs).1.dirs ⊆ fs.dirs := by
  induction l generalizing fs with
  | nil => simp [deleteDirs]
  | cons d rest ih =>
    cases h1 : startsWith (res d) target with
    | false => simpa [deleteDirs, h1] using ih fs
    | true =>
      cases h2 : !dirNonEmpty fs d && delOk d with
      | false => simpa [deleteDirs, h1, h2] using ih fs
      | true =>
        simp only [deleteDirs, h1, h2, if_true, Bool.true_eq]
        refine (ih _).trans ?_
        simp only [removeDir]
        exact List.filter_subset' _

theorem deleteDirs_deleted_startsWith {target : Path} {res : Path → Path}
    {delOk : Path → Bool} {l : List Path} {fs : FS} {p : Path}
    (h : Event.dirDeleted p ∈ (deleteDirs target res delOk l fs).2) :
    startsWith (res p) target = true := by
  induction l generalizing fs with
  | nil => simp [deleteDirs] at h
  | cons d rest ih =>
    cases h1 : startsWith (res d) target with
    | false =>
      simp [deleteDirs, h1] at h
      exact ih h
    | true =>
      cases h2 : !dirNonEmpty fs d && delOk d with
      | false =>
        simp [deleteDirs, h1, h2] at h
        exact ih h
      | true =>
        simp [deleteDirs, h1, h2] at h
        rcases h with rfl | h
        · exact h1
        · exact ih h

theorem deleteDirs_outside_kept {target : Path} {res : Path → Path}
    {delOk : Path → Bool} {l : List Path} {fs : FS} {p : Path}
    (hout : startsWith (res p) target = false) (hp : p ∈ fs.dirs) :
    p ∈ (deleteDirs target res delOk l fs).1.dirs := by
  induction l generalizing fs with
  | nil => simpa [deleteDirs] using hp
  | cons d rest ih =>
    cases h1 : startsWith (res d) target with
    | false =>
      simp only [deleteDirs, h1]
      simpa using ih hp
    | true =>
      cases h2 : !dirNonEmpty fs d && delOk d with
      | false =>
        simp only [deleteDirs, h1, h2]
        simpa using ih hp
      | true =>
        simp only [deleteDirs, h1, h2, if_true, Bool.true_eq]
        apply ih
        simp only [removeDir, List.mem_filter, decide_eq_true_eq]
        refine ⟨hp, ?_⟩
        intro hpd
        rw [hpd, h1] at hout
        cases hout

theorem deleteDirs_skip_event {target : Path} {res : Path → Path}
    {delOk : Path → Bool} {l : List Path} {fs : FS} {d : Path}
    (hd : d ∈ l) (hout : startsWith (res d) target = false) :
    Event.dirSkipped d ∈ (deleteDirs target res delOk l fs).2 := by
  induction l generalizing fs with
  | nil => cases hd
  | cons g rest ih =>
    rcases List.mem_cons.mp hd with rfl | hd'
    · simp [deleteDirs, hout]
    · cases h1 : startsWith (res g) target with
      | false =>
        simp only [deleteDirs, h1]
        simp [ih hd']
      | true =>
        cases h2 : !dirNonEmpty fs g && delOk g with
        | false =>
          simp only [deleteDirs, h1, h2]
          simp [ih hd']
        | true =>
          simp only [deleteDirs, h1, h2]
          simp [ih hd']

theorem deleteDirs_success_removed {target : Path} {res : Path → Path}
    {delOk : Path → Bool} {l : List Path} {fs : FS} {d : Path} (hd : d ∈ l)
    (hs : ∀ ev ∈ (deleteDirs target res delOk l fs).2, ev.isSuccess = true) :
    d ∉ (deleteDirs target res delOk l fs).1.dirs := by
  induction l generalizing fs with
  | nil => cases hd
  | cons g rest ih =>
    cases h1 : startsWith (res g) target with
    | false =>
      exfalso
      have := hs (.dirSkipped g) (by simp [deleteDirs, h1])
      simp [Event.isSuccess] at this
    | true =>
      cases h2 : !dirNonEmpty fs g && delOk g with
      | false =>
        exfalso
        have := hs (.dirFailed g) (by simp [deleteDirs, h1, h2])
        simp [Event.isSuccess] at this
      | true =>
        simp only [deleteDirs, h1, h2, if_true, Bool.true_eq] at hs ⊢
        have hs' : ∀ ev ∈ (deleteDirs target res delOk rest (removeDir fs g)).2,
            ev.isSuccess = true := by
          intro ev hev
          exact hs ev (by simp [hev])
        rcases List.mem_cons.mp hd with rfl | hd'
        · intro hmem
          have := deleteDirs_dirs_subset target res delOk rest (removeDir fs d) hmem
          simp [removeDir, List.mem_filter] at this
        · exact ih hd' hs'

/-! ### Characterization of the four control-flow branches of `runWithTarget` -/

theorem runWithTarget_gate_fail {fs : FS} {target : Path} {e : GateError}
    (hg : safetyGate fs target = some e) (yes : Bool) (res : Path → Path)
    (delOk : Path → Bool) (confirmAnswer : Bool) (logPath : String) :
    runWithTarget target yes fs res delOk confirmAnswer logPath =
      ⟨.exited 1, false, some e, [], [], fs, none⟩ := by
  simp [runWithTarget, hg]

theorem runWithTarget_cancel {fs : FS} {target : Path}
    (hg : safetyGate fs target = none) (res : Path → Path)
    (delOk : Path → Bool) (logPath : String) :
    runWithTarget target false fs res delOk false logPath =
      ⟨.exited 0, true, none, [], [⟨.info, cancelMsg⟩], fs, none⟩ := by
  simp [runWithTarget, hg]

theorem runWithTarget_no_files {fs : FS} {target : Path} {yes confirmAnswer : Bool}
    (hg : safetyGate fs target = none) (hp : yes = true ∨ confirmAnswer = true)
    (hz : scanFiles fs target = []) (res : Path → Path)
    (delOk : Path → Bool) (logPath : String) :
    runWithTarget target yes fs res delOk confirmAnswer logPath =
      ⟨.completed, !yes, none, [], [⟨.info, noFilesMsg⟩], fs,
        some ⟨pathStr target, 0, logPath⟩⟩ := by
  rcases hp with rfl | rfl
  · simp [runWithTarget, hg, hz]
  · cases yes <;> simp [runWithTarget, hg, hz]

theorem runWithTarget_deletes {fs : FS} {target : Path} {yes confirmAnswer : Bool}
    (hg : safetyGate fs target = none) (hp : yes = true ∨ confirmAnswer = true)
    (hz : scanFiles fs target ≠ []) (res : Path → Path)
    (delOk : Path → Bool) (logPath : String) :
    runWithTarget target yes fs res delOk confirmAnswer logPath =
      ⟨.completed, !yes, none, (runDeletion target res delOk fs).2,
        ((runDeletion target res delOk fs).2).map logOfEvent ++ [⟨.info, completedMsg⟩],
        (runDeletion target res delOk fs).1,
        some ⟨pathStr target, (scanFiles fs target).length, logPath⟩⟩ := by
  have hz' : (scanFiles fs target).length ≠ 0 := fun h => hz (List.eq_nil_of_length_eq_zero h)
  rcases hp with rfl | rfl
  · simp [runWithTarget, hg, hz', runDeletion]
  · cases yes <;> simp [runWithTarget, hg, hz', runDeletion]

/-! ### Claim theorems -/

/-- C10: if no `--path` argument is supplied and both the LOCALAPPDATA and
APPDATA environment variables are unset, the program terminates with an
unhandled `TypeError` (`Path(None)`), not through the documented
PathNotFound/UnexpectedPath exit-1 handling. -/
theorem missing_env_crashes_typeerror (yes : Bool) (fs : FS) (res : Path → Path)
    (delOk : Path → Bool) (confirmAnswer : Bool) (logPath : String)
    (parsePath : String → Path) :
    mainRun none yes none none fs res delOk confirmAnswer logPath parsePath =
      .crashedTypeError ∧
    ∀ out : RunOutput,
      mainRun none yes none none fs res delOk confirmAnswer logPath parsePath ≠ .ran out :=
  ⟨rfl, fun _ h => ProgResult.noConfusion h⟩

/-- C7: when the resolved target does not exist or is not a directory, the run
is rejected with the PathNotFound condition, no confirmation prompt is shown,
the process exits with code 1, and no filesystem entry is touched (no events,
filesystem unchanged). -/
theorem nonexistent_target_rejected (target : Path) (yes : Bool) (fs : FS)
    (res : Path → Path) (delOk : Path → Bool) (confirmAnswer : Bool) (logPath : String)
    (h : dirExists fs target = false) :
    runWithTarget target yes fs res delOk confirmAnswer logPath =
      ⟨.exited 1, false, some .pathNotFound, [], [], fs, none⟩ := by
  have hg : safetyGate fs target = some .pathNotFound := by
    simp [safetyGate, h]
  exact runWithTarget_gate_fail hg yes res delOk confirmAnswer logPath

/-- C7 witness: a missing target on a concrete run. -/
theorem nonexistent_target_rejected_witness :
    runWithTarget ["x"] false ⟨[], []⟩ (fun p => p) (fun _ => true) true "log" =
      ⟨.exited 1, false, some .pathNotFound, [], [], ⟨[], []⟩, none⟩ :=
  nonexistent_target_rejected ["x"] false ⟨[], []⟩ (fun p => p) (fun _ => true) true "log"
    (by decide)

/-- C8: if the prompt is shown (no `-y`) and the user answers no, the process
exits with status 0, performs zero deletions, the filesystem is untouched,
and the log holds exactly one record: the cancellation. -/
theorem declined_confirmation_cancels (target : Path) (fs : FS) (res : Path → Path)
    (delOk : Path → Bool) (logPath : String) (hg : safetyGate fs target = none) :
    runWithTarget target false fs res delOk false logPath =
      ⟨.exited 0, true, none, [], [⟨.info, cancelMsg⟩], fs, none⟩ :=
  runWithTarget_cancel hg res delOk logPath

/-- C8 witness: a declined confirmation on a concrete run. -/
theorem declined_confirmation_cancels_witness :
    runWithTarget ["c", "CameraRaw", "Cache2"] false ⟨[], [["c", "CameraRaw", "Cache2"]]⟩
      (fun p => p) (fun _ => true) false "log" =
      ⟨.exited 0, true, none, [], [⟨.info, cancelMsg⟩], ⟨[], [["c", "CameraRaw", "Cache2"]]⟩,
        none⟩ :=
  declined_confirmation_cancels ["c", "CameraRaw", "Cache2"]
    ⟨[], [["c", "CameraRaw", "Cache2"]]⟩ (fun p => p) (fun _ => true) "log" (by decide)

/-- C9: when the scan finds zero files, the whole deletion phase is skipped
(no file or directory attempt, existing empty subdirectories stay), the run
logs the zero-deletion record, the summary reports zero files deleted, the
process completes successfully, and a second run on the resulting filesystem
reports the same. -/
theorem zero_files_skips_deletion (target : Path) (yes : Bool) (fs : FS)
    (res : Path → Path) (delOk : Path → Bool) (confirmAnswer : Bool) (logPath : String)
    (hg : safetyGate fs target = none) (hp : yes = true ∨ confirmAnswer = true)
    (hz : scanFiles fs target = []) :
    runWithTarget target yes fs res delOk confirmAnswer logPath =
      ⟨.completed, !yes, none, [], [⟨.info, noFilesMsg⟩], fs,
        some ⟨pathStr target, 0, logPath⟩⟩ ∧
    runWithTarget target yes
        (runWithTarget target yes fs res delOk confirmAnswer logPath).finalFS
        res delOk confirmAnswer logPath =
      ⟨.completed, !yes, none, [], [⟨.info, noFilesMsg⟩], fs,
        some ⟨pathStr target, 0, logPath⟩⟩ := by
  have h1 := runWithTarget_no_files hg hp hz res delOk logPath
  refine ⟨h1, ?_⟩
  have h2 : (runWithTarget target yes fs res delOk confirmAnswer logPath).finalFS = fs := by
    rw [h1]
  rw [h2]
  exact h1

/-- C9 witness: a target with no files but one empty subdirectory; the
subdirectory is left in place and zero deletions are reported, twice. -/
theorem zero_files_skips_deletion_witness :
    runWithTarget ["c", "CameraRaw", "Cache2"] true
      ⟨[], [["c", "CameraRaw", "Cache2"], ["c", "CameraRaw", "Cache2", "sub"]]⟩
      (fun p => p) (fun _ => true) true "log" =
      ⟨.completed, false, none, [], [⟨.info, noFilesMsg⟩],
        ⟨[], [["c", "CameraRaw", "Cache2"], ["c", "CameraRaw", "Cache2", "sub"]]⟩,
        some ⟨pathStr ["c", "CameraRaw", "Cache2"], 0, "log"⟩⟩ ∧
    runWithTarget ["c", "CameraRaw", "Cache2"] true
      (runWithTarget ["c", "CameraRaw", "Cache2"] true
        ⟨[], [["c", "CameraRaw", "Cache2"], ["c", "CameraRaw", "Cache2", "sub"]]⟩
        (fun p => p) (fun _ => true) true "log").finalFS
      (fun p => p) (fun _ => true) true "log" =
      ⟨.completed, false, none, [], [⟨.info, noFilesMsg⟩],
        ⟨[], [["c", "CameraRaw", "Cache2"], ["c", "CameraRaw", "Cache2", "sub"]]⟩,
        some ⟨pathStr ["c", "CameraRaw", "Cache2"], 0, "log"⟩⟩ :=
  zero_files_skips_deletion ["c", "CameraRaw", "Cache2"] true
    ⟨[], [["c", "CameraRaw", "Cache2"], ["c", "CameraRaw", "Cache2", "sub"]]⟩
    (fun p => p) (fun _ => true) true "log" (by decide) (Or.inl rfl) (by decide)

/-- C6 counterexample: the path `/nope` misses both markers and does not
exist; the gate rejects it with PathNotFound — not UnexpectedPath — so a
marker-less path is not rejected with UnexpectedPath regardless of
existence. -/
theorem missing_marker_nonexistent_gives_pathNotFound :
    hasMarkers (pathStr ["nope"]) = false ∧
    safetyGate ⟨[], []⟩ ["nope"] = some .pathNotFound ∧
    safetyGate ⟨[], []⟩ ["nope"] ≠ some .unexpectedPath := by decide

/-- C6 (amended): the Safety Gate accepts a target exactly when it is an
existing directory whose string form carries both the CameraRaw and Cache2
markers; a path missing a marker is rejected with UnexpectedPath when the
existence check passes, while a nonexistent path is rejected with
PathNotFound even when markers are missing; every gate rejection exits with
status 1. -/
theorem safety_gate_marker_check (fs : FS) (target : Path) :
    (safetyGate fs target = none ↔
      dirExists fs target = true ∧ hasMarkers (pathStr target) = true) ∧
    (dirExists fs target = true → hasMarkers (pathStr target) = false →
      safetyGate fs target = some .unexpectedPath) ∧
    (dirExists fs target = false → safetyGate fs target = some .pathNotFound) ∧
    (∀ e, safetyGate fs target = some e →
      ∀ (yes : Bool) (res : Path → Path) (delOk : Path → Bool) (confirmAnswer : Bool)
        (logPath : String),
        (runWithTarget target yes fs res delOk confirmAnswer logPath).outcome =
          .exited 1) := by
  refine ⟨?_, ?_, ?_, ?_⟩
  · cases h1 : dirExists fs target <;> cases h2 : hasMarkers (pathStr target) <;>
      simp [safetyGate, h1, h2]
  · intro h1 h2
    simp [safetyGate, h1, h2]
  · intro h1
    simp [safetyGate, h1]
  · intro e he yes res delOk confirmAnswer logPath
    rw [runWithTarget_gate_fail he yes res delOk confirmAnswer logPath]

/-- C6 witness: an existing directory missing the markers is rejected with
UnexpectedPath, and a gate failure exits with code 1. -/
theorem safety_gate_marker_check_witness :
    safetyGate ⟨[], [["x"]]⟩ ["x"] = some .unexpectedPath ∧
    (runWithTarget ["x"] true ⟨[], [["x"]]⟩ (fun p => p) (fun _ => true) true
      "log").outcome = .exited 1 :=
  ⟨(safety_gate_marker_check ⟨[], [["x"]]⟩ ["x"]).2.1 (by decide) (by decide),
    (safety_gate_marker_check ⟨[], [["x"]]⟩ ["x"]).2.2.2 .unexpectedPath
      ((safety_gate_marker_check ⟨[], [["x"]]⟩ ["x"]).2.1 (by decide) (by decide))
      true (fun p => p) (fun _ => true) true "log"⟩

/-- C2 evaluated at a failing input: over a target with one file whose unlink
fails, the run deletes nothing, yet the summary's files-deleted row reports
1 — the scanned total — so the row does not equal the number of files
actually deleted and is not lower than the scanned total. -/
theorem summary_reports_scan_total_on_failure :
    (runWithTarget ["c", "CameraRaw", "Cache2"] true
      ⟨[["c", "CameraRaw", "Cache2", "a.dat"]], [["c", "CameraRaw", "Cache2"]]⟩
      (fun p => p) (fun _ => false) true "log").events =
      [.fileFailed ["c", "CameraRaw", "Cache2", "a.dat"]] ∧
    (runWithTarget ["c", "CameraRaw", "Cache2"] true
      ⟨[["c", "CameraRaw", "Cache2", "a.dat"]], [["c", "CameraRaw", "Cache2"]]⟩
      (fun p => p) (fun _ => false) true "log").summary =
      some ⟨pathStr ["c", "CameraRaw", "Cache2"], 1, "log"⟩ := by decide

/-- C4: a confirmed failure-free run over a target holding exactly the files
a.dat and b.dat and the empty subdirectory sub reports Files Deleted: 2 in
the summary, removes sub, and leaves the target directory itself in
existence. -/
theorem example_two_files_one_subdir :
    (runWithTarget ["c", "Adobe", "CameraRaw", "Cache2"] false
      ⟨[["c", "Adobe", "CameraRaw", "Cache2", "a.dat"],
        ["c", "Adobe", "CameraRaw", "Cache2", "b.dat"]],
       [["c", "Adobe", "CameraRaw", "Cache2"],
        ["c", "Adobe", "CameraRaw", "Cache2", "sub"]]⟩
      (fun p => p) (fun _ => true) true "log").outcome = .completed ∧
    (runWithTarget ["c", "Adobe", "CameraRaw", "Cache2"] false
      ⟨[["c", "Adobe", "CameraRaw", "Cache2", "a.dat"],
        ["c", "Adobe", "CameraRaw", "Cache2", "b.dat"]],
       [["c", "Adobe", "CameraRaw", "Cache2"],
        ["c", "Adobe", "CameraRaw", "Cache2", "sub"]]⟩
      (fun p => p) (fun _ => true) true "log").summary =
      some ⟨pathStr ["c", "Adobe", "CameraRaw", "Cache2"], 2, "log"⟩ ∧
    (runWithTarget ["c", "Adobe", "CameraRaw", "Cache2"] false
      ⟨[["c", "Adobe", "CameraRaw", "Cache2", "a.dat"],
        ["c", "Adobe", "CameraRaw", "Cache2", "b.dat"]],
       [["c", "Adobe", "CameraRaw", "Cache2"],
        ["c", "Adobe", "CameraRaw", "Cache2", "sub"]]⟩
      (fun p => p) (fun _ => true) true "log").finalFS =
      ⟨[], [["c", "Adobe", "CameraRaw", "Cache2"]]⟩ := by decide

/-- C1: no filesystem entry whose resolved path lies outside the originally
resolved target directory is ever deleted: every deleted event's path
resolves to a descendant of the target, entries resolving outside (e.g. via a
symlink) survive in the final filesystem untouched, and whenever the deletion
phase runs, a scanned entry resolving outside is skipped with a warning in
the run log instead of being deleted. -/
theorem no_outside_deletion (target : Path) (yes : Bool) (fs : FS) (res : Path → Path)
    (delOk : Path → Bool) (confirmAnswer : Bool) (logPath : String) :
    (∀ p, Event.fileDeleted p ∈
        (runWithTarget target yes fs res delOk confirmAnswer logPath).events →
      startsWith (res p) target = true) ∧
    (∀ p, Event.dirDeleted p ∈
        (runWithTarget target yes fs res delOk confirmAnswer logPath).events →
      startsWith (res p) target = true) ∧
    (∀ p, p ∈ fs.files → startsWith (res p) target = false →
      p ∈ (runWithTarget target yes fs res delOk confirmAnswer logPath).finalFS.files) ∧
    (∀ p, p ∈ fs.dirs → startsWith (res p) target = false →
      p ∈ (runWithTarget target yes fs res delOk confirmAnswer logPath).finalFS.dirs) ∧
    (∀ p, p ∈ scanFiles fs target → startsWith (res p) target = false →
      (runWithTarget target yes fs res delOk confirmAnswer logPath).outcome = .completed →
      Event.fileSkipped p ∈
        (runWithTarget target yes fs res delOk confirmAnswer logPath).events ∧
      (⟨.warning, "Skipping file outside target: " ++ pathStr p⟩ : LogRecord) ∈
        (runWithTarget target yes fs res delOk confirmAnswer logPath).log) ∧
    (∀ p, p ∈ sortDirs (scanDirs fs target) → startsWith (res p) target = false →
      scanFiles fs target ≠ [] →
      (runWithTarget target yes fs res delOk confirmAnswer logPath).outcome = .completed →
      Event.dirSkipped p ∈
        (runWithTarget target yes fs res delOk confirmAnswer logPath).events ∧
      (⟨.warning, "Skipping directory outside target: " ++ pathStr p⟩ : LogRecord) ∈
        (runWithTarget target yes fs res delOk confirmAnswer logPath).log) := by
  cases hg : safetyGate fs target with
  | some e =>
    rw [runWithTarget_gate_fail hg yes res delOk confirmAnswer logPath]
    exact ⟨by simp, by simp, fun p hp _ => hp, fun p hp _ => hp,
      (by intro p _ _ h; cases h), (by intro p _ _ _ h; cases h)⟩
  | none =>
    by_cases hyc : yes = true ∨ confirmAnswer = true
    · by_cases hz : scanFiles fs target = []
      · rw [runWithTarget_no_files hg hyc hz res delOk logPath]
        refine ⟨by simp, by simp, fun p hp _ => hp, fun p hp _ => hp, ?_, ?_⟩
        · intro p hp
          rw [hz] at hp
          cases hp
        · intro p _ _ hne _
          exact absurd hz hne
      · rw [runWithTarget_deletes hg hyc hz res delOk logPath]
        simp only [runDeletion]
        refine ⟨?_, ?_, ?_, ?_, ?_, ?_⟩
        · intro p hp
          rcases List.mem_append.mp hp with h | h
          · exact deleteFiles_deleted_startsWith h
          · have := deleteDirs_events_dir target res delOk _ _ _ h
            simp [Event.isDirEv] at this
        · intro p hp
          rcases List.mem_append.mp hp with h | h
          · have := deleteFiles_events_file target res delOk _ _ _ h
            simp [Event.isFileEv] at this
          · exact deleteDirs_deleted_startsWith h
        · intro p hp hout
          show p ∈ (deleteDirs target res delOk _ _).1.files
          rw [deleteDirs_files]
          exact deleteFiles_outside_kept hout hp
        · intro p hp hout
          apply deleteDirs_outside_kept hout
          rw [deleteFiles_dirs]
          exact hp
        · intro p hp hout _
          refine ⟨List.mem_append.mpr (Or.inl (deleteFiles_skip_event hp hout)), ?_⟩
          apply List.mem_append.mpr
          left
          exact List.mem_map.mpr
            ⟨.fileSkipped p,
              List.mem_append.mpr (Or.inl (deleteFiles_skip_event hp hout)), rfl⟩
        · intro p hp hout _ _
          refine ⟨List.mem_append.mpr (Or.inr (deleteDirs_skip_event hp hout)), ?_⟩
          apply List.mem_append.mpr
          left
          exact List.mem_map.mpr
            ⟨.dirSkipped p,
              List.mem_append.mpr (Or.inr (deleteDirs_skip_event hp hout)), rfl⟩
    · have hy : yes = false := by
        cases yes
        · rfl
        · exact absurd (Or.inl rfl) hyc
      have hcf : confirmAnswer = false := by
        cases confirmAnswer
        · rfl
        · exact absurd (Or.inr rfl) hyc
      subst hy
      subst hcf
      rw [runWithTarget_cancel hg res delOk logPath]
      exact ⟨by simp, by simp, fun p hp _ => hp, fun p hp _ => hp,
        (by intro p _ _ h; cases h), (by intro p _ _ _ h; cases h)⟩

/-- C1 witness: a symlink inside the target resolving to `/etc/passwd` is not
deleted: it survives in the final filesystem of a concrete confirmed run. -/
theorem no_outside_deletion_witness :
    ["c", "CameraRaw", "Cache2", "link"] ∈
      (runWithTarget ["c", "CameraRaw", "Cache2"] true
        ⟨[["c", "CameraRaw", "Cache2", "link"]], [["c", "CameraRaw", "Cache2"]]⟩
        (fun p => if p = ["c", "CameraRaw", "Cache2", "link"] then ["etc", "passwd"] else p)
        (fun _ => true) true "log").finalFS.files :=
  (no_outside_deletion ["c", "CameraRaw", "Cache2"] true
    ⟨[["c", "CameraRaw", "Cache2", "link"]], [["c", "CameraRaw", "Cache2"]]⟩
    (fun p => if p = ["c", "CameraRaw", "Cache2", "link"] then ["etc", "passwd"] else p)
    (fun _ => true) true "log").2.2.1 ["c", "CameraRaw", "Cache2", "link"]
    (by decide) (by decide)

/-- C3 counterexample: a confirmed run over a target with zero files and one
empty subdirectory completes with no per-entry failure — no deletion is even
attempted — yet the subdirectory survives: the Directory List of a
subsequent scan is not empty, so the target's descendants are not all
removed. -/
theorem no_failure_run_keeps_empty_subdir :
    (runWithTarget ["c", "CameraRaw", "Cache2"] true
      ⟨[], [["c", "CameraRaw", "Cache2"], ["c", "CameraRaw", "Cache2", "sub"]]⟩
      (fun p => p) (fun _ => true) true "log").outcome = .completed ∧
    (runWithTarget ["c", "CameraRaw", "Cache2"] true
      ⟨[], [["c", "CameraRaw", "Cache2"], ["c", "CameraRaw", "Cache2", "sub"]]⟩
      (fun p => p) (fun _ => true) true "log").events = [] ∧
    scanDirs (runWithTarget ["c", "CameraRaw", "Cache2"] true
      ⟨[], [["c", "CameraRaw", "Cache2"], ["c", "CameraRaw", "Cache2", "sub"]]⟩
      (fun p => p) (fun _ => true) true "log").finalFS ["c", "CameraRaw", "Cache2"] =
      [["c", "CameraRaw", "Cache2", "sub"]] := by decide

/-- C3 (amended): a confirmed run that finds at least one file and in which
every per-entry deletion attempt succeeds removes every file and every
subdirectory under the target: a subsequent scan yields an empty File List
and an empty Directory List. -/
theorem success_run_clears_target (target : Path) (yes : Bool) (fs : FS)
    (res : Path → Path) (delOk : Path → Bool) (confirmAnswer : Bool) (logPath : String)
    (hne : scanFiles fs target ≠ [])
    (hc : (runWithTarget target yes fs res delOk confirmAnswer logPath).outcome = .completed)
    (hs : ∀ ev ∈ (runWithTarget target yes fs res delOk confirmAnswer logPath).events,
      ev.isSuccess = true) :
    scanFiles (runWithTarget target yes fs res delOk confirmAnswer logPath).finalFS target
      = [] ∧
    scanDirs (runWithTarget target yes fs res delOk confirmAnswer logPath).finalFS target
      = [] := by
  cases hg : safetyGate fs target with
  | some e =>
    rw [runWithTarget_gate_fail hg yes res delOk confirmAnswer logPath] at hc
    simp at hc
  | none =>
    by_cases hyc : yes = true ∨ confirmAnswer = true
    · rw [runWithTarget_deletes hg hyc hne res delOk logPath] at hs ⊢
      simp only [runDeletion] at hs ⊢
      have hsf : ∀ ev ∈ (deleteFiles target res delOk (scanFiles fs target) fs).2,
          ev.isSuccess = true :=
        fun ev hev => hs ev (List.mem_append.mpr (Or.inl hev))
      have hsd : ∀ ev ∈ (deleteDirs target res delOk (sortDirs (scanDirs fs target))
          (deleteFiles target res delOk (scanFiles fs target) fs).1).2,
          ev.isSuccess = true :=
        fun ev hev => hs ev (List.mem_append.mpr (Or.inr hev))
      constructor
      · apply List.filter_eq_nil_iff.mpr
        intro p hp hin
        rw [deleteDirs_files] at hp
        have hpfs : p ∈ fs.files := deleteFiles_files_subset target res delOk _ fs hp
        have hpscan : p ∈ scanFiles fs target := List.mem_filter.mpr ⟨hpfs, hin⟩
        exact deleteFiles_success_removed hpscan hsf hp
      · apply List.filter_eq_nil_iff.mpr
        intro p hp hin
        have hp' : p ∈ (deleteFiles target res delOk (scanFiles fs target) fs).1.dirs :=
          deleteDirs_dirs_subset target res delOk _ _ hp
        rw [deleteFiles_dirs] at hp'
        have hpscan : p ∈ scanDirs fs target := List.mem_filter.mpr ⟨hp', hin⟩
        have hsort : p ∈ sortDirs (scanDirs fs target) :=
          (List.mem_insertionSort dirOrder).mpr hpscan
        exact deleteDirs_success_removed hsort hsd hp
    · have hy : yes = false := by
        cases yes
        · rfl
        · exact absurd (Or.inl rfl) hyc
      have hcf : confirmAnswer = false := by
        cases confirmAnswer
        · rfl
        · exact absurd (Or.inr rfl) hyc
      subst hy
      subst hcf
      rw [runWithTarget_cancel hg res delOk logPath] at hc
      simp at hc

/-- C3 witness: the amended theorem applied to a concrete failure-free run
with two files and one subdirectory. -/
theorem success_run_clears_target_witness :
    scanFiles (runWithTarget ["c", "Adobe", "CameraRaw", "Cache2"] false
      ⟨[["c", "Adobe", "CameraRaw", "Cache2", "a.dat"],
        ["c", "Adobe", "CameraRaw", "Cache2", "b.dat"]],
       [["c", "Adobe", "CameraRaw", "Cache2"],
        ["c", "Adobe", "CameraRaw", "Cache2", "sub"]]⟩
      (fun p => p) (fun _ => true) true "log").finalFS
      ["c", "Adobe", "CameraRaw", "Cache2"] = [] ∧
    scanDirs (runWithTarget ["c", "Adobe", "CameraRaw", "Cache2"] false
      ⟨[["c", "Adobe", "CameraRaw", "Cache2", "a.dat"],
        ["c", "Adobe", "CameraRaw", "Cache2", "b.dat"]],
       [["c", "Adobe", "CameraRaw", "Cache2"],
        ["c", "Adobe", "CameraRaw", "Cache2", "sub"]]⟩
      (fun p => p) (fun _ => true) true "log").finalFS
      ["c", "Adobe", "CameraRaw", "Cache2"] = [] :=
  success_run_clears_target ["c", "Adobe", "CameraRaw", "Cache2"] false
    ⟨[["c", "Adobe", "CameraRaw", "Cache2", "a.dat"],
      ["c", "Adobe", "CameraRaw", "Cache2", "b.dat"]],
     [["c", "Adobe", "CameraRaw", "Cache2"],
      ["c", "Adobe", "CameraRaw", "Cache2", "sub"]]⟩
    (fun p => p) (fun _ => true) true "log" (by decide) (by decide) (by decide)

/-! ### Ordering of the deletion trace -/

theorem Event.not_file_and_dir {ev : Event} (hf : ev.isFileEv = true)
    (hd : ev.isDirEv = true) : False := by
  cases ev <;> simp_all [Event.isFileEv, Event.isDirEv]

theorem inDir_irrefl (p : Path) : inDir p p = false := by
  simp [inDir]

theorem sorted_desc_get_lt {l : List Path} (hl : l.Sorted dirOrder)
    {i j : Fin l.length} (hij : inDir (l.get i) (l.get j) = true) :
    (j : ℕ) < (i : ℕ) := by
  rcases lt_trichotomy (i : ℕ) (j : ℕ) with h | h | h
  · exfalso
    have hrel := hl.rel_get_of_lt (show i < j from Fin.lt_def.mpr h)
    have hlt := inDir_pathStr_lt hij
    simp only [dirOrder] at hrel
    omega
  · exfalso
    have hsame : l.get i = l.get j := by
      congr 1
      exact Fin.ext h
    rw [hsame] at hij
    rw [inDir_irrefl] at hij
    cases hij
  · exact h

/-- In a file-event block followed by a dir-event block whose paths read off
a `dirOrder`-sorted list, every file event precedes every dir event, and a
dir event about a strict descendant precedes the dir event about its
ancestor. -/
theorem append_events_order (fevs devs : List Event) (sorted : List Path)
    (hF : ∀ ev ∈ fevs, ev.isFileEv = true)
    (hD : ∀ ev ∈ devs, ev.isDirEv = true)
    (hmap : devs.map Event.path = sorted)
    (hsort : sorted.Sorted dirOrder) :
    (∀ i j : Fin (fevs ++ devs).length,
      ((fevs ++ devs).get i).isFileEv = true →
      ((fevs ++ devs).get j).isDirEv = true → (i : ℕ) < (j : ℕ)) ∧
    (∀ i j : Fin (fevs ++ devs).length,
      ((fevs ++ devs).get i).isDirEv = true →
      ((fevs ++ devs).get j).isDirEv = true →
      inDir ((fevs ++ devs).get i).path ((fevs ++ devs).get j).path = true →
      (j : ℕ) < (i : ℕ)) := by
  have hlen : devs.length = sorted.length := by
    rw [← hmap]
    simp
  have hpathk : ∀ (k : ℕ) (hb : k < devs.length),
      (devs.get ⟨k, hb⟩).path = sorted.get ⟨k, hlen ▸ hb⟩ := by
    intro k hb
    have h1 : (devs.map Event.path).get ⟨k, by simpa using hb⟩ =
        Event.path (devs.get ⟨k, hb⟩) := List.getElem_map _
    have h2 := List.get_of_eq hmap ⟨k, by simpa using hb⟩
    exact h1.symm.trans h2
  constructor
  · intro i j hi hj
    have hiL : (i : ℕ) < fevs.length := by
      by_contra hcon
      push_neg at hcon
      have hb : (i : ℕ) - fevs.length < devs.length := by
        have := i.isLt
        simp only [List.length_append] at this
        omega
      have he : (fevs ++ devs).get i = devs.get ⟨(i : ℕ) - fevs.length, hb⟩ :=
        List.getElem_append_right hcon
      rw [he] at hi
      exact Event.not_file_and_dir hi (hD _ (List.get_mem _ _ _))
    have hjL : fevs.length ≤ (j : ℕ) := by
      by_contra hcon
      push_neg at hcon
      have he : (fevs ++ devs).get j = fevs.get ⟨(j : ℕ), hcon⟩ :=
        List.getElem_append_left hcon
      rw [he] at hj
      exact Event.not_file_and_dir (hF _ (List.get_mem _ _ _)) hj
    omega
  · intro i j hi hj hij
    have hiL : fevs.length ≤ (i : ℕ) := by
      by_contra hcon
      push_neg at hcon
      have he : (fevs ++ devs).get i = fevs.get ⟨(i : ℕ), hcon⟩ :=
        List.getElem_append_left hcon
      rw [he] at hi
      exact Event.not_file_and_dir (hF _ (List.get_mem _ _ _)) hi
    have hjL : fevs.length ≤ (j : ℕ) := by
      by_contra hcon
      push_neg at hcon
      have he : (fevs ++ devs).get j = fevs.get ⟨(j : ℕ), hcon⟩ :=
        List.getElem_append_left hcon
      rw [he] at hj
      exact Event.not_file_and_dir (hF _ (List.get_mem _ _ _)) hj
    have hbi : (i : ℕ) - fevs.length < devs.length := by
      have := i.isLt
      simp only [List.length_append] at this
      omega
    have hbj : (j : ℕ) - fevs.length < devs.length := by
      have := j.isLt
      simp only [List.length_append] at this
      omega
    have hei : (fevs ++ devs).get i = devs.get ⟨(i : ℕ) - fevs.length, hbi⟩ :=
      List.getElem_append_right hiL
    have hej : (fevs ++ devs).get j = devs.get ⟨(j : ℕ) - fevs.length, hbj⟩ :=
      List.getElem_append_right hjL
    rw [hei, hej, hpathk _ hbi, hpathk _ hbj] at hij
    have := sorted_desc_get_lt hsort hij
    simp only [Fin.val_mk] at this
    omega

/-- C5: in the deletion order of any run, no directory's removal is attempted
before all of its descendants in the scan snapshot: every file event precedes
every directory event, and among directory events one about a strict
descendant of another directory's path comes strictly earlier, because the
Directory List is sorted by descending path-string length and a descendant's
string is strictly longer than its ancestor's. -/
theorem deletion_order_children_first (target : Path) (yes : Bool) (fs : FS)
    (res : Path → Path) (delOk : Path → Bool) (confirmAnswer : Bool) (logPath : String) :
    (∀ i j : Fin (runWithTarget target yes fs res delOk confirmAnswer logPath).events.length,
      (((runWithTarget target yes fs res delOk confirmAnswer logPath).events.get i).isFileEv
        = true) →
      (((runWithTarget target yes fs res delOk confirmAnswer logPath).events.get j).isDirEv
        = true) →
      (i : ℕ) < (j : ℕ)) ∧
    (∀ i j : Fin (runWithTarget target yes fs res delOk confirmAnswer logPath).events.length,
      (((runWithTarget target yes fs res delOk confirmAnswer logPath).events.get i).isDirEv
        = true) →
      (((runWithTarget target yes fs res delOk confirmAnswer logPath).events.get j).isDirEv
        = true) →
      inDir ((runWithTarget target yes fs res delOk confirmAnswer logPath).events.get i).path
        ((runWithTarget target yes fs res delOk confirmAnswer logPath).events.get j).path
        = true →
      (j : ℕ) < (i : ℕ)) := by
  cases hg : safetyGate fs target with
  | some e =>
    rw [runWithTarget_gate_fail hg yes res delOk confirmAnswer logPath]
    exact ⟨fun i j _ _ => absurd i.isLt (by simp), fun i j _ _ _ => absurd i.isLt (by simp)⟩
  | none =>
    by_cases hyc : yes = true ∨ confirmAnswer = true
    · by_cases hz : scanFiles fs target = []
      · rw [runWithTarget_no_files hg hyc hz res delOk logPath]
        exact ⟨fun i j _ _ => absurd i.isLt (by simp), fun i j _ _ _ => absurd i.isLt (by simp)⟩
      · rw [runWithTarget_deletes hg hyc hz res delOk logPath]
        simp only [runDeletion]
        exact append_events_order _ _ (sortDirs (scanDirs fs target))
          (deleteFiles_events_file target res delOk (scanFiles fs target) fs)
          (deleteDirs_events_dir target res delOk (sortDirs (scanDirs fs target)) _)
          (deleteDirs_events_path target res delOk (sortDirs (scanDirs fs target)) _)
          (List.sorted_insertionSort dirOrder (scanDirs fs target))
    · have hy : yes = false := by
        cases yes
        · rfl
        · exact absurd (Or.inl rfl) hyc
      have hcf : confirmAnswer = false := by
        cases confirmAnswer
        · rfl
        · exact absurd (Or.inr rfl) hyc
      subst hy
      subst hcf
      rw [runWithTarget_cancel hg res delOk logPath]
      exact ⟨fun i j _ _ => absurd i.isLt (by simp), fun i j _ _ _ => absurd i.isLt (by simp)⟩

/-- C5 witness: on a concrete run with one file and one subdirectory, the
file's deletion event (position 0) precedes the directory's (position 1). -/
theorem deletion_order_children_first_witness :
    (((runWithTarget ["c", "CameraRaw", "Cache2"] true
      ⟨[["c", "CameraRaw", "Cache2", "sub", "a.dat"]],
       [["c", "CameraRaw", "Cache2"], ["c", "CameraRaw", "Cache2", "sub"]]⟩
      (fun p => p) (fun _ => true) true "log").events.get ⟨0, by decide⟩).isFileEv = true) ∧
    (((runWithTarget ["c", "CameraRaw", "Cache2"] true
      ⟨[["c", "CameraRaw", "Cache2", "sub", "a.dat"]],
       [["c", "CameraRaw", "Cache2"], ["c", "CameraRaw", "Cache2", "sub"]]⟩
      (fun p => p) (fun _ => true) true "log").events.get ⟨1, by decide⟩).isDirEv = true) ∧
    (0 : ℕ) < 1 :=
  ⟨by decide, by decide,
    (deletion_order_children_first ["c", "CameraRaw", "Cache2"] true
      ⟨[["c", "CameraRaw", "Cache2", "sub", "a.dat"]],
       [["c", "CameraRaw", "Cache2"], ["c", "CameraRaw", "Cache2", "sub"]]⟩
      (fun p => p) (fun _ => true) true "log").1 ⟨0, by decide⟩ ⟨1, by decide⟩
      (by decide) (by decide)⟩

end DeleteCache
